import Mathlib

/-!
Verification of the bi-directional message-passing thread primitive of the
repository (threading::Queue, threading::MsgThread and the Message hierarchy,
declared in the header `src/unnamed/part_000`).

The repository snapshot ships only the `MsgThread.h` header; the method bodies
(`MsgThread.cc`, `Queue.h`, `BasicThread`) are not under `src/`.  Where a
definition embeds such a missing body, its doc comment starts with
"Modelled from the spec:" and names the missing file; everything else is a
direct shallow embedding of the header.  Effects of the concurrent program
(Process invocations, reporter-sink calls, heartbeat hook calls) are recorded
as explicit logs inside the state, and the interleaving of the main thread and
the child thread is a list of events folded over the state.
-/

namespace Threading

/-- Modelled from the spec: the small batch threshold K of Queue's Put
(`Queue.h` is not under src/; the spec gives "e.g., 10"). -/
def batchSize : Nat := 10

/-- Modelled from the spec: the SPSC queue of `Queue.h` (not under src/),
with a producer-local buffer, a shared staging buffer and a consumer-local
buffer, plus the monotonic enqueue/dequeue counters.  The three buffers are
FIFO lists; the mutex and condition variable guard only the staging buffer
and are not part of the functional state. -/
structure Queue (α : Type) where
  prod_buf : List α
  staging : List α
  cons_buf : List α
  num_writes : Nat
  num_reads : Nat
  deriving DecidableEq

/-- The empty queue. -/
def emptyQ {α : Type} : Queue α := ⟨[], [], [], 0, 0⟩

/-- Modelled from the spec: `Queue<T>::Put` (`Queue.h` not under src/).
Appends to the producer-local buffer; if the batch threshold is reached or
the consumer-local buffer is known to be empty, splices the producer-local
buffer onto the staging buffer (the lock-and-signal step).  Increments the
enqueue counter. -/
def Queue.put {α : Type} (q : Queue α) (v : α) : Queue α :=
  let pb := q.prod_buf ++ [v]
  if batchSize ≤ pb.length ∨ q.cons_buf.isEmpty then
    { q with prod_buf := [], staging := q.staging ++ pb,
             num_writes := q.num_writes + 1 }
  else
    { q with prod_buf := pb, num_writes := q.num_writes + 1 }

/-- Modelled from the spec: `Queue<T>::Get` (`Queue.h` not under src/).
Pops the consumer-local head if available (lock-free fast path); otherwise
swaps the staging buffer into the consumer-local buffer and retries; if
staging is also empty the bounded condition-variable wait expires and Get
returns null, which the shallow embedding renders as `none`.  Increments the
dequeue counter on success. -/
def Queue.get {α : Type} (q : Queue α) : Queue α × Option α :=
  match q.cons_buf with
  | x :: rest => ({ q with cons_buf := rest, num_reads := q.num_reads + 1 }, some x)
  | [] =>
    match q.staging with
    | [] => (q, none)
    | x :: rest =>
      ({ q with cons_buf := rest, staging := [], num_reads := q.num_reads + 1 }, some x)

/-- Modelled from the spec: `Queue<T>::Ready` (`Queue.h` not under src/):
true iff the consumer-local buffer or the staging buffer is non-empty. -/
def Queue.ready {α : Type} (q : Queue α) : Bool :=
  !q.cons_buf.isEmpty || !q.staging.isEmpty

/-- Modelled from the spec: `Queue<T>::MaybeReady` (`Queue.h` not under
src/): the lock-free approximation comparing the two counters. -/
def Queue.maybeReady {α : Type} (q : Queue α) : Bool :=
  q.num_writes != q.num_reads

/-- The logical content of the queue, oldest element first: consumer-local
buffer, then staging, then producer-local buffer. -/
def Queue.content {α : Type} (q : Queue α) : List α :=
  q.cons_buf ++ q.staging ++ q.prod_buf

theorem Queue.content_put {α : Type} (q : Queue α) (v : α) :
    (q.put v).content = q.content ++ [v] := by
  simp only [Queue.put, Queue.content]
  split <;> simp

theorem Queue.get_none {α : Type} (q : Queue α) :
    (q.get).2 = none → (q.get).1 = q ∧ q.cons_buf = [] ∧ q.staging = [] := by
  unfold Queue.get
  cases hc : q.cons_buf with
  | cons x rest => simp
  | nil =>
    cases hs : q.staging with
    | cons x rest => simp
    | nil => simp [hc, hs]

theorem Queue.get_some_content {α : Type} (q : Queue α) (x : α) :
    (q.get).2 = some x → q.content = x :: (q.get).1.content := by
  unfold Queue.get Queue.content
  cases hc : q.cons_buf with
  | cons y rest => intro h; simp at h; simp [h]
  | nil =>
    cases hs : q.staging with
    | nil => simp
    | cons y rest => intro h; simp at h; simp [h]

theorem Queue.get_some_ready {α : Type} (q : Queue α) (x : α) :
    (q.get).2 = some x → q.ready = true := by
  unfold Queue.get Queue.ready
  cases hc : q.cons_buf with
  | cons y rest => simp
  | nil =>
    cases hs : q.staging with
    | nil => simp
    | cons y rest => simp

/-- An operation performed on one queue: a producer-side Put of a value, or a
consumer-side Get. -/
inductive QOp (α : Type) where
  | put (v : α)
  | get
  deriving DecidableEq

/-- Runs a list of queue operations from a starting queue, returning the final
queue and the list of values successfully returned by Get, in the order the
consumer received them. -/
def runQ {α : Type} : Queue α → List (QOp α) → Queue α × List α
  | q, [] => (q, [])
  | q, QOp.put v :: ops => runQ (q.put v) ops
  | q, QOp.get :: ops =>
    let p := q.get
    match p.2 with
    | none => runQ p.1 ops
    | some x =>
      let r := runQ p.1 ops
      (r.1, x :: r.2)

/-- The values enqueued by a list of queue operations, in producer order. -/
def putsOf {α : Type} : List (QOp α) → List α
  | [] => []
  | QOp.put v :: ops => v :: putsOf ops
  | QOp.get :: ops => putsOf ops

theorem runQ_content {α : Type} (ops : List (QOp α)) :
    ∀ q : Queue α, (runQ q ops).2 ++ (runQ q ops).1.content = q.content ++ putsOf ops := by
  induction ops with
  | nil => intro q; simp [runQ, putsOf]
  | cons op ops ih =>
    intro q
    cases op with
    | put v =>
      simp only [runQ, putsOf]
      rw [ih (q.put v), Queue.content_put]
      simp
    | get =>
      simp only [runQ, putsOf]
      rcases hg : q.get with ⟨q1, r⟩
      cases r with
      | none =>
        have h := Queue.get_none q (by rw [hg])
        rw [hg] at h
        simp only [hg]
        have hq1 : q1 = q := h.1
        subst hq1
        exact ih _
      | some x =>
        have h := Queue.get_some_content q x (by rw [hg])
        rw [hg] at h
        simp only [hg]
        rw [h]
        simp only [List.cons_append]
        rw [ih q1]

/-- The diagnostic categories of the child-side reporting channel, following
the methods declared in the header (`Info`, `Warning`, `Error`, `FatalError`,
`FatalErrorWithCore`, `InternalWarning`, `InternalError`, and `Debug` with its
stream identifier). -/
inductive Diag where
  | info
  | warning
  | error
  | fatalError
  | fatalErrorWithCore
  | internalWarning
  | internalError
  | debug (stream : Nat)
  deriving DecidableEq

/-- Instances of `BasicInputMessage` as needed for verification: a generic
work message with an identifier and the boolean its `Process` returns, and
the distinguished `HeartbeatMessage` carrying the network time and wall-clock
time provided by the main thread (doubles in the source, modelled as
rationals; the model never computes with them). -/
inductive InMsg where
  | work (id : Nat) (ret : Bool)
  | heartbeat (network_time current_time : Rat)
  deriving DecidableEq

/-- The boolean returned by the input message's `Process` callback: the
stored flag for a work message; a heartbeat's processing succeeds. -/
def InMsg.ret : InMsg → Bool
  | .work _ r => r
  | .heartbeat _ _ => true

/-- Instances of `BasicOutputMessage` as needed for verification: a reporter
diagnostic carrying its category and text, the one-shot heartbeat
acknowledgment, and the terminal sentinel enqueued at shutdown. -/
inductive OutMsg where
  | reporter (kind : Diag) (text : String)
  | heartbeatDone
  | finished
  deriving DecidableEq

/-- The state of one `MsgThread` together with the logs of the observable
effects of both sides.  Fields `queue_in`, `queue_out`, `cnt_sent_in` and
`cnt_sent_out` embed the members declared in the header; `terminating` is the
one-way latch of `BasicThread`; `exited` records that the child run-loop has
exited (the Exited lifecycle state).  The remaining fields are effect logs:
`processed_in` lists the input messages whose `Process` the child invoked, in
invocation order; `dropped_in`/`dropped_out` count messages destroyed without
enqueue by the terminating-state drop rule; `drained_in` lists residual input
messages discarded by the final drain; `do_heartbeats` lists the argument
pairs of child-side `DoHeartbeat` invocations; `sink_events` lists main-side
reporter/debug-logger sink invocations in order; `heartbeat_hooks` counts
main-side `Heartbeat()` hook invocations; `finished_seen` records that the
manager observed the terminal sentinel. -/
structure MsgThread where
  name : String
  queue_in : Queue InMsg
  queue_out : Queue OutMsg
  cnt_sent_in : Nat
  cnt_sent_out : Nat
  terminating : Bool
  exited : Bool
  processed_in : List InMsg
  dropped_in : Nat
  dropped_out : Nat
  drained_in : List InMsg
  do_heartbeats : List (Rat × Rat)
  sink_events : List (Diag × String)
  heartbeat_hooks : Nat
  finished_seen : Bool
  deriving DecidableEq

/-- A freshly created thread with the given name: empty queues, zero
counters, not terminating, not exited, empty effect logs. -/
def initThread (n : String) : MsgThread :=
  { name := n, queue_in := emptyQ, queue_out := emptyQ, cnt_sent_in := 0,
    cnt_sent_out := 0, terminating := false, exited := false,
    processed_in := [], dropped_in := 0, dropped_out := 0, drained_in := [],
    do_heartbeats := [], sink_events := [], heartbeat_hooks := 0,
    finished_seen := false }

/-- Modelled from the spec: the private `MsgThread::SendIn(msg, force)` whose
body lives in `MsgThread.cc` (not under src/).  If the thread is terminating
and the send is not forced, the message is destroyed immediately without
enqueue (logged in `dropped_in`); otherwise it is Put on the in-queue and the
sent-in counter is incremented. -/
def MsgThread.sendInF (t : MsgThread) (m : InMsg) (force : Bool) : MsgThread :=
  if t.terminating && !force then
    { t with dropped_in := t.dropped_in + 1 }
  else
    { t with queue_in := t.queue_in.put m, cnt_sent_in := t.cnt_sent_in + 1 }

/-- Modelled from the spec: the private `MsgThread::SendOut(msg, force)`
whose body lives in `MsgThread.cc` (not under src/); same policy as
`sendInF`, onto the out-queue. -/
def MsgThread.sendOutF (t : MsgThread) (m : OutMsg) (force : Bool) : MsgThread :=
  if t.terminating && !force then
    { t with dropped_out := t.dropped_out + 1 }
  else
    { t with queue_out := t.queue_out.put m, cnt_sent_out := t.cnt_sent_out + 1 }

/-- The public one-argument `MsgThread::SendIn(msg)`, inline in the header:
`{ return SendIn(msg, false); }`. -/
def MsgThread.sendIn (t : MsgThread) (m : InMsg) : MsgThread :=
  t.sendInF m false

/-- The public one-argument `MsgThread::SendOut(msg)`, inline in the header:
`{ return SendOut(msg, false); }`. -/
def MsgThread.sendOut (t : MsgThread) (m : OutMsg) : MsgThread :=
  t.sendOutF m false

/-- The inline `MsgThread::HasIn`, from the header: `queue_in.Ready()`. -/
def MsgThread.hasIn (t : MsgThread) : Bool :=
  t.queue_in.ready

/-- The inline `MsgThread::HasOut`, from the header: `queue_out.Ready()`. -/
def MsgThread.hasOut (t : MsgThread) : Bool :=
  t.queue_out.ready

/-- The inline `MsgThread::MightHaveOut`, from the header:
`queue_out.MaybeReady()`. -/
def MsgThread.mightHaveOut (t : MsgThread) : Bool :=
  t.queue_out.maybeReady

/-- Modelled from the spec: `MsgThread::RetrieveIn` (body in `MsgThread.cc`,
not under src/): pops a message from the main-to-child queue via Get,
returning null when the queue yields nothing. -/
def MsgThread.retrieveIn (t : MsgThread) : MsgThread × Option InMsg :=
  let p := t.queue_in.get
  ({ t with queue_in := p.1 }, p.2)

/-- Modelled from the spec: `MsgThread::RetrieveOut` (body in
`MsgThread.cc`, not under src/): pops a message from the child-to-main queue
via Get, with ownership passed to the caller; returns null when the queue
yields nothing. -/
def MsgThread.retrieveOut (t : MsgThread) : MsgThread × Option OutMsg :=
  let p := t.queue_out.get
  ({ t with queue_out := p.1 }, p.2)

/-- Modelled from the spec: the child-side hook `MsgThread::DoHeartbeat`
(body in `MsgThread.cc`, not under src/): records its two time arguments (the
invocation log) and enqueues the one-shot output message that invokes the
main-side `Heartbeat()` hook on arrival. -/
def MsgThread.doHeartbeat (t : MsgThread) (nt ct : Rat) : MsgThread × Bool :=
  (({ t with do_heartbeats := t.do_heartbeats ++ [(nt, ct)] }).sendOut .heartbeatDone, true)

/-- Modelled from the spec: executing an input message's `Process` on the
child thread (bodies in `MsgThread.cc`, not under src/).  The invocation is
logged in `processed_in`; a work message returns its stored flag; a heartbeat
message invokes `DoHeartbeat` with exactly the two times provided by the main
thread. -/
def MsgThread.processInMsg (t : MsgThread) (m : InMsg) : MsgThread × Bool :=
  let t1 := { t with processed_in := t.processed_in ++ [m] }
  match m with
  | .work _ r => (t1, r)
  | .heartbeat nt ct => t1.doHeartbeat nt ct

/-- Modelled from the spec: executing an output message's `Process` on the
main thread (bodies in `MsgThread.cc`, not under src/).  A reporter message
makes exactly one invocation of the corresponding sink; the heartbeat
acknowledgment invokes the main-side `Heartbeat()` hook; the terminal
sentinel tells the manager the thread shut down cleanly. -/
def MsgThread.processOutMsg (t : MsgThread) (m : OutMsg) : MsgThread :=
  match m with
  | .reporter d txt => { t with sink_events := t.sink_events ++ [(d, txt)] }
  | .heartbeatDone => { t with heartbeat_hooks := t.heartbeat_hooks + 1 }
  | .finished => { t with finished_seen := true }

/-- Modelled from the spec: `MsgThread::Heartbeat` (body in `MsgThread.cc`,
not under src/): invoked by the manager on the main thread; constructs a
heartbeat message carrying the current network and wall time and SendIn-forces
it. -/
def MsgThread.heartbeat (t : MsgThread) (network_time current_time : Rat) : MsgThread :=
  t.sendInF (.heartbeat network_time current_time) true

/-- Modelled from the spec: one iteration of the child run-loop of
`MsgThread::Run` (body in `MsgThread.cc`, not under src/).  The loop repeats
until terminating and the in-queue is empty; each iteration Gets from the
in-queue with a bounded timeout (null simply re-checks the flag), otherwise
invokes the message's `Process` and sets the terminating flag when it returns
false.  On exit it drains residual in-queue messages (discarded, by the
terminating-state drop rule), invokes the `OnStop` hook (a no-op in the
base class) and enqueues the forced terminal output sentinel. -/
def MsgThread.childIter (t : MsgThread) : MsgThread :=
  if t.exited then t
  else if t.terminating && !t.queue_in.ready then
    let q1 : Queue InMsg := ⟨[], [], [], t.queue_in.num_writes, t.queue_in.num_reads⟩
    let t1 := { t with drained_in := t.drained_in ++ t.queue_in.content, queue_in := q1 }
    let t2 := t1.sendOutF .finished true
    { t2 with exited := true }
  else
    match t.retrieveIn with
    | (t1, none) => t1
    | (t1, some m) =>
      let p := t1.processInMsg m
      if p.2 then p.1 else { p.1 with terminating := true }

/-- Iterates the child run-loop a given number of times. -/
def MsgThread.childIterN : Nat → MsgThread → MsgThread
  | 0, t => t
  | n + 1, t => MsgThread.childIterN n t.childIter

/-- Modelled from the spec: the manager's bounded drain on the main thread
(`DrainOnce`): repeatedly RetrieveOut and invoke `Process` on each retrieved
output message, stopping at the first null; the fuel argument bounds the
number of retrievals. -/
def MsgThread.drainOut : Nat → MsgThread → MsgThread
  | 0, t => t
  | n + 1, t =>
    match t.retrieveOut with
    | (t1, none) => t1
    | (t1, some m) => MsgThread.drainOut n (t1.processOutMsg m)

/-- An event of the interleaved execution of the two threads: the main
thread sending an input message through the public interface, the main
thread requesting stop (latching the terminating flag), or the child thread
performing one run-loop iteration. -/
inductive Ev where
  | send (m : InMsg)
  | stop
  | child
  deriving DecidableEq

/-- One step of the interleaved system. -/
def step (t : MsgThread) : Ev → MsgThread
  | .send m => t.sendIn m
  | .stop => { t with terminating := true }
  | .child => t.childIter

/-- Runs a list of events over a thread state. -/
def run (t : MsgThread) (evs : List Ev) : MsgThread :=
  evs.foldl step t

@[simp] theorem MsgThread.sendOutF_queue_in (t : MsgThread) (m : OutMsg) (f : Bool) :
    (t.sendOutF m f).queue_in = t.queue_in := by
  simp only [MsgThread.sendOutF]; split <;> rfl

@[simp] theorem MsgThread.sendOutF_terminating (t : MsgThread) (m : OutMsg) (f : Bool) :
    (t.sendOutF m f).terminating = t.terminating := by
  simp only [MsgThread.sendOutF]; split <;> rfl

@[simp] theorem MsgThread.sendOutF_exited (t : MsgThread) (m : OutMsg) (f : Bool) :
    (t.sendOutF m f).exited = t.exited := by
  simp only [MsgThread.sendOutF]; split <;> rfl

@[simp] theorem MsgThread.sendOutF_processed_in (t : MsgThread) (m : OutMsg) (f : Bool) :
    (t.sendOutF m f).processed_in = t.processed_in := by
  simp only [MsgThread.sendOutF]; split <;> rfl

@[simp] theorem MsgThread.sendOutF_drained_in (t : MsgThread) (m : OutMsg) (f : Bool) :
    (t.sendOutF m f).drained_in = t.drained_in := by
  simp only [MsgThread.sendOutF]; split <;> rfl

/-- Executing an input message's `Process` touches neither the in-queue nor
the lifecycle flags; it appends the message to the invocation log and returns
the message's `Process` flag. -/
theorem MsgThread.processInMsg_inv (t : MsgThread) (m : InMsg) :
    (t.processInMsg m).1.queue_in = t.queue_in ∧
    (t.processInMsg m).1.terminating = t.terminating ∧
    (t.processInMsg m).1.exited = t.exited ∧
    (t.processInMsg m).1.processed_in = t.processed_in ++ [m] ∧
    (t.processInMsg m).1.drained_in = t.drained_in ∧
    (t.processInMsg m).2 = m.ret := by
  cases m <;>
    simp [MsgThread.processInMsg, MsgThread.doHeartbeat, MsgThread.sendOut, InMsg.ret]

/-- Draining the child run-loop: from a terminating, not yet exited state
whose in-queue holds `l` in the consumer-visible buffers, `l.length + 1`
iterations process exactly `l` in order, exit the loop, and discard exactly
the producer-local residue. -/
theorem child_drain (l : List InMsg) :
    ∀ t : MsgThread, t.terminating = true → t.exited = false →
    t.queue_in.cons_buf ++ t.queue_in.staging = l →
    (MsgThread.childIterN (l.length + 1) t).processed_in = t.processed_in ++ l ∧
    (MsgThread.childIterN (l.length + 1) t).exited = true ∧
    (MsgThread.childIterN (l.length + 1) t).drained_in
      = t.drained_in ++ t.queue_in.prod_buf := by
  induction l with
  | nil =>
    intro t h1 h2 h3
    have hc : t.queue_in.cons_buf = [] := by
      rcases List.append_eq_nil.mp h3 with ⟨hcc, _⟩; exact hcc
    have hs : t.queue_in.staging = [] := by
      rcases List.append_eq_nil.mp h3 with ⟨_, hss⟩; exact hss
    simp only [List.length_nil, MsgThread.childIterN, MsgThread.childIter, h1, h2,
      Queue.ready, hc, hs, Queue.content]
    simp
  | cons m rest ih =>
    intro t h1 h2 h3
    have hready : t.queue_in.ready = true := by
      unfold Queue.ready
      cases hc : t.queue_in.cons_buf with
      | cons y ys => simp
      | nil =>
        rw [hc] at h3; simp at h3
        simp [h3]
    have hstep : MsgThread.childIterN ((m :: rest).length + 1) t
        = MsgThread.childIterN (rest.length + 1) t.childIter := by
      simp [MsgThread.childIterN]
    rw [hstep]
    -- compute the retrieval performed by this iteration
    obtain ⟨q1, hq1get, hq1cs, hq1prod⟩ :
        ∃ q1 : Queue InMsg, t.queue_in.get = (q1, some m) ∧
          q1.cons_buf ++ q1.staging = rest ∧ q1.prod_buf = t.queue_in.prod_buf := by
      cases hc : t.queue_in.cons_buf with
      | cons y ys =>
        rw [hc] at h3
        simp at h3
        refine ⟨⟨t.queue_in.prod_buf, t.queue_in.staging, ys, t.queue_in.num_writes, t.queue_in.num_reads + 1⟩, ?_, ?_, rfl⟩
        · simp [Queue.get, hc, h3.1]
        · simpa using h3.2
      | nil =>
        rw [hc] at h3
        simp at h3
        refine ⟨⟨t.queue_in.prod_buf, [], rest, t.queue_in.num_writes, t.queue_in.num_reads + 1⟩, ?_, by simp, rfl⟩
        simp [Queue.get, hc, h3]
    have hiter : t.childIter
        = (if (({ t with queue_in := q1 } : MsgThread).processInMsg m).2 then
            (({ t with queue_in := q1 } : MsgThread).processInMsg m).1
          else
            { (({ t with queue_in := q1 } : MsgThread).processInMsg m).1 with
              terminating := true }) := by
      rw [MsgThread.childIter]
      rw [if_neg (by simp [h2])]
      rw [if_neg (by simp [hready])]
      simp only [MsgThread.retrieveIn, hq1get]
    set t1 : MsgThread := { t with queue_in := q1 } with ht1
    have hp := MsgThread.processInMsg_inv t1 m
    obtain ⟨hpq, hpt, hpe, hpp, hpd, hpr⟩ := hp
    have hfields : t.childIter.queue_in = q1 ∧ t.childIter.terminating = true ∧
        t.childIter.exited = false ∧ t.childIter.processed_in = t.processed_in ++ [m] ∧
        t.childIter.drained_in = t.drained_in := by
      rw [hiter]
      cases hr : (t1.processInMsg m).2 <;>
        simp_all
    obtain ⟨hf1, hf2, hf3, hf4, hf5⟩ := hfields
    have := ih t.childIter hf2 hf3 (by rw [hf1]; exact hq1cs)
    obtain ⟨ha, hb, hc⟩ := this
    refine ⟨?_, hb, ?_⟩
    · rw [ha, hf4]; simp
    · rw [hc, hf5, hf1, hq1prod]

/-- The send phase: while the thread is not terminating and the consumer-local
buffer of the in-queue is empty, every public SendIn splices immediately, so a
burst of sends lands in the staging buffer in producer order. -/
theorem run_sends (ms : List InMsg) :
    ∀ t : MsgThread, t.terminating = false → t.queue_in.cons_buf = [] →
    t.queue_in.prod_buf = [] →
    (run t (ms.map Ev.send)).queue_in.cons_buf = [] ∧
    (run t (ms.map Ev.send)).queue_in.prod_buf = [] ∧
    (run t (ms.map Ev.send)).queue_in.staging = t.queue_in.staging ++ ms ∧
    (run t (ms.map Ev.send)).terminating = false ∧
    (run t (ms.map Ev.send)).exited = t.exited ∧
    (run t (ms.map Ev.send)).processed_in = t.processed_in ∧
    (run t (ms.map Ev.send)).drained_in = t.drained_in ∧
    (run t (ms.map Ev.send)).cnt_sent_in = t.cnt_sent_in + ms.length := by
  induction ms with
  | nil => intro t h1 h2 h3; simp [run, h1, h2, h3]
  | cons m ms ih =>
    intro t h1 h2 h3
    have hstep : run t ((m :: ms).map Ev.send) = run (t.sendIn m) (ms.map Ev.send) := by
      simp [run, step]
    rw [hstep]
    have hu1 : (t.sendIn m).terminating = false := by
      simp [MsgThread.sendIn, MsgThread.sendInF, h1]
    have hu2 : (t.sendIn m).queue_in.cons_buf = [] := by
      simp [MsgThread.sendIn, MsgThread.sendInF, Queue.put, h1, h2, h3]
    have hu3 : (t.sendIn m).queue_in.prod_buf = [] := by
      simp [MsgThread.sendIn, MsgThread.sendInF, Queue.put, h1, h2, h3]
    have hu4 : (t.sendIn m).queue_in.staging = t.queue_in.staging ++ [m] := by
      simp [MsgThread.sendIn, MsgThread.sendInF, Queue.put, h1, h2, h3]
    have hu5 : (t.sendIn m).exited = t.exited := by
      simp [MsgThread.sendIn, MsgThread.sendInF, h1]
    have hu6 : (t.sendIn m).processed_in = t.processed_in := by
      simp [MsgThread.sendIn, MsgThread.sendInF, h1]
    have hu7 : (t.sendIn m).drained_in = t.drained_in := by
      simp [MsgThread.sendIn, MsgThread.sendInF, h1]
    have hu8 : (t.sendIn m).cnt_sent_in = t.cnt_sent_in + 1 := by
      simp [MsgThread.sendIn, MsgThread.sendInF, h1]
    obtain ⟨c1, c2, c3, c4, c5, c6, c7, c8⟩ := ih (t.sendIn m) hu1 hu2 hu3
    refine ⟨c1, c2, ?_, c4, ?_, ?_, ?_, ?_⟩
    · rw [c3, hu4]; simp
    · rw [c5, hu5]
    · rw [c6, hu6]
    · rw [c7, hu7]
    · rw [c8, hu8]; simp; omega

/-- Iterating the event `child` is iterating the run-loop. -/
theorem run_children (k : Nat) :
    ∀ t : MsgThread, run t (List.replicate k Ev.child) = MsgThread.childIterN k t := by
  induction k with
  | zero => intro t; simp [run, MsgThread.childIterN]
  | succ n ih =>
    intro t
    rw [List.replicate_succ]
    show run (step t Ev.child) (List.replicate n Ev.child) = _
    rw [ih]
    rfl

/-- Claim C1, as amended.  The exactly-once guarantee holds for every send
that reaches the queue's consumer-visible buffers; in particular, if the
main thread sends the messages `ms` (in that order), only then requests
stop, and the child then runs its loop, the child's list of `Process`
invocations is exactly `ms` — each message exactly once, in order — the
run-loop reaches the Exited state, and no residual message is discarded.
The unrestricted form of the claim (over all interleavings) fails: a
non-forced send that lands in the producer-local batch buffer while the
consumer-local buffer is non-empty is never spliced if no later put flushes
it, and the final drain discards it. -/
theorem msgThread_backlog_exactly_once (n : String) (ms : List InMsg) :
    (run (initThread n) (ms.map Ev.send ++ Ev.stop :: List.replicate (ms.length + 1) Ev.child)).processed_in = ms ∧
    (run (initThread n) (ms.map Ev.send ++ Ev.stop :: List.replicate (ms.length + 1) Ev.child)).exited = true ∧
    (run (initThread n) (ms.map Ev.send ++ Ev.stop :: List.replicate (ms.length + 1) Ev.child)).drained_in = [] := by
  have hsplit : run (initThread n) (ms.map Ev.send ++ Ev.stop :: List.replicate (ms.length + 1) Ev.child)
      = run (step (run (initThread n) (ms.map Ev.send)) Ev.stop)
          (List.replicate (ms.length + 1) Ev.child) := by
    simp [run, List.foldl_append]
  obtain ⟨c1, c2, c3, c4, c5, c6, c7, c8⟩ :=
    run_sends ms (initThread n) rfl rfl rfl
  have hstaging : (run (initThread n) (ms.map Ev.send)).queue_in.staging = ms := by
    simpa [initThread, emptyQ] using c3
  set t1 := run (initThread n) (ms.map Ev.send) with ht1
  have hstop : step t1 Ev.stop = { t1 with terminating := true } := rfl
  have hdrain := child_drain ms { t1 with terminating := true } rfl
    (by simpa [initThread] using c5)
    (by simp [c1, hstaging])
  rw [hsplit, hstop, run_children]
  obtain ⟨d1, d2, d3⟩ := hdrain
  refine ⟨?_, d2, ?_⟩
  · rw [d1]; simp [c6, initThread]
  · rw [d3]; simp [c7, c2, initThread]

/-- The schedule refuting the unrestricted form of claim C1: the main thread
sends two work messages, the child runs one iteration (leaving its
consumer-local buffer non-empty), the main thread sends a third message —
which therefore stays in the producer-local batch buffer — and only then
requests stop; the child loop then runs to exit. -/
def c1Schedule : List Ev :=
  [Ev.send (InMsg.work 0 true), Ev.send (InMsg.work 1 true), Ev.child,
   Ev.send (InMsg.work 2 true), Ev.stop, Ev.child, Ev.child, Ev.child]

/-- Counterexample to claim C1 as stated.  In the schedule `c1Schedule` the
message `work 2 true` is enqueued by a non-forced SendIn strictly before the
terminating flag is set (the sent-in counter reaches 3 and nothing is
dropped at send time), yet when the run-loop reaches the Exited state its
`Process` was never invoked: only the first two messages are processed, and
the third is discarded unprocessed by the final drain. -/
theorem msgThread_exactly_once_counterexample :
    (run (initThread ("w")) c1Schedule).terminating = true ∧
    (run (initThread ("w")) c1Schedule).exited = true ∧
    (run (initThread ("w")) c1Schedule).cnt_sent_in = 3 ∧
    (run (initThread ("w")) c1Schedule).dropped_in = 0 ∧
    (run (initThread ("w")) c1Schedule).processed_in
      = [InMsg.work 0 true, InMsg.work 1 true] ∧
    (run (initThread ("w")) c1Schedule).drained_in = [InMsg.work 2 true] := by
  decide

/-- Claim C2.  FIFO delivery: for any sequence of queue operations by the
single producer and single consumer starting from the empty queue, the list
of values Get returns to the consumer — which the consumer's run-loop feeds
to `Process` in exactly this order — is an initial segment of the list of
values Put by the producer, in producer-enqueue order; hence if a is enqueued
before b, a's delivery precedes b's. -/
theorem queue_fifo_delivery {α : Type} (ops : List (QOp α)) :
    ∃ rest, (runQ (emptyQ : Queue α) ops).2 ++ rest = putsOf ops := by
  refine ⟨(runQ (emptyQ : Queue α) ops).1.content, ?_⟩
  have h := runQ_content ops (emptyQ : Queue α)
  simpa [emptyQ, Queue.content] using h

/-- Claim C3.  Non-forced sends during termination are dropped: if the thread
is terminating, a public (non-forced) SendIn or SendOut destroys the message
immediately — the state changes only by counting the destroyed message, so
the queue (and its content) is unchanged, the message is never enqueued and
its `Process` is never invoked, and the sent counter is not incremented;
otherwise the message is Put on the corresponding queue and the counter is
incremented. -/
theorem sendIn_sendOut_terminating_drop (t : MsgThread) (mi : InMsg) (mo : OutMsg) :
    t.sendIn mi = (if t.terminating
      then { t with dropped_in := t.dropped_in + 1 }
      else { t with queue_in := t.queue_in.put mi, cnt_sent_in := t.cnt_sent_in + 1 }) ∧
    (t.sendIn mi).queue_in.content
      = (if t.terminating then t.queue_in.content else t.queue_in.content ++ [mi]) ∧
    (t.sendIn mi).cnt_sent_in
      = (if t.terminating then t.cnt_sent_in else t.cnt_sent_in + 1) ∧
    t.sendOut mo = (if t.terminating
      then { t with dropped_out := t.dropped_out + 1 }
      else { t with queue_out := t.queue_out.put mo, cnt_sent_out := t.cnt_sent_out + 1 }) ∧
    (t.sendOut mo).queue_out.content
      = (if t.terminating then t.queue_out.content else t.queue_out.content ++ [mo]) ∧
    (t.sendOut mo).cnt_sent_out
      = (if t.terminating then t.cnt_sent_out else t.cnt_sent_out + 1) := by
  cases ht : t.terminating <;>
    simp [MsgThread.sendIn, MsgThread.sendInF, MsgThread.sendOut, MsgThread.sendOutF,
      ht, Queue.content_put]

/-- Claim C9.  The public one-argument send overloads delegate to the private
two-argument forms with force set to false, exactly as the inline bodies in
the header do; consequently every send reachable through the public interface
is subject to the terminating-state drop rule. -/
theorem public_send_overloads_nonforced (t : MsgThread) (mi : InMsg) (mo : OutMsg) :
    t.sendIn mi = t.sendInF mi false ∧
    t.sendOut mo = t.sendOutF mo false ∧
    (t.sendIn mi).dropped_in
      = (if t.terminating then t.dropped_in + 1 else t.dropped_in) ∧
    (t.sendOut mo).dropped_out
      = (if t.terminating then t.dropped_out + 1 else t.dropped_out) := by
  refine ⟨rfl, rfl, ?_, ?_⟩ <;> cases ht : t.terminating <;>
    simp [MsgThread.sendIn, MsgThread.sendInF, MsgThread.sendOut, MsgThread.sendOutF, ht]

/-- Claim C8.  RetrieveOut returns null exactly when the out-queue yields no
message (its consumer-visible buffers are empty); otherwise it returns the
oldest pending output message, removed from the queue so that ownership
passes to the caller: the queue content before the call is the returned
message followed by the content after the call. -/
theorem retrieveOut_null_or_oldest (t : MsgThread) :
    match t.retrieveOut with
    | (t1, none) => t.queue_out.ready = false ∧ t1 = t
    | (t1, some m) => t.queue_out.ready = true
        ∧ t.queue_out.content = m :: t1.queue_out.content := by
  rcases hg : t.queue_out.get with ⟨q1, r⟩
  have hre : t.retrieveOut = ({ t with queue_out := q1 }, r) := by
    simp only [MsgThread.retrieveOut, hg]
  rw [hre]
  cases r with
  | none =>
    have h := Queue.get_none t.queue_out (by rw [hg])
    rw [hg] at h
    constructor
    · unfold Queue.ready
      rw [h.2.1, h.2.2]
      rfl
    · have hq : q1 = t.queue_out := h.1
      rw [hq]
  | some m =>
    constructor
    · exact Queue.get_some_ready t.queue_out m (by rw [hg])
    · have h := Queue.get_some_content t.queue_out m (by rw [hg])
      rw [hg] at h
      exact h

/-- The `Message` base class from the header: it owns the descriptive name
string set by its constructor. -/
structure Message where
  name : String
  deriving DecidableEq

/-- The parameterized `InputMessage<O>` from the header: a
`BasicInputMessage` that stores the raw object pointer handed to its
constructor; the pointer value is modelled as a value of the type
parameter, and no copy of the pointee is made. -/
structure InputMessage (O : Type) extends Message where
  object : O

/-- The `InputMessage<O>` constructor from the header:
`InputMessage(name, arg_object)` forwards the name to `Message` and stores
the argument pointer. -/
def InputMessage.make {O : Type} (n : String) (o : O) : InputMessage O := ⟨⟨n⟩, o⟩

/-- `InputMessage<O>::Object` from the header: `return object`. -/
def InputMessage.Object {O : Type} (m : InputMessage O) : O := m.object

/-- `Message::Name` from the header, viewed on an input message: returns the
stored name by const reference; the message is not modified (the accessor is
const, which the pure model renders by being a function of the message). -/
def InputMessage.Name {O : Type} (m : InputMessage O) : String := m.name

/-- The parameterized `OutputMessage<O>` from the header, the mirror image of
`InputMessage<O>` for child-to-main messages. -/
structure OutputMessage (O : Type) extends Message where
  object : O

/-- The `OutputMessage<O>` constructor from the header. -/
def OutputMessage.make {O : Type} (n : String) (o : O) : OutputMessage O := ⟨⟨n⟩, o⟩

/-- `OutputMessage<O>::Object` from the header: `return object`. -/
def OutputMessage.Object {O : Type} (m : OutputMessage O) : O := m.object

/-- `Message::Name` from the header, viewed on an output message. -/
def OutputMessage.Name {O : Type} (m : OutputMessage O) : String := m.name

/-- Claim C10.  For any `InputMessage<O>` or `OutputMessage<O>` constructed
with name n and object pointer o, `Object()` returns exactly the stored
pointer o and `Name()` returns exactly n; both accessors are const (pure
functions of the message), so the message is left unchanged. -/
theorem message_object_name_accessors {O : Type} (n : String) (o : O) :
    (InputMessage.make n o).Object = o ∧ (InputMessage.make n o).Name = n ∧
    (OutputMessage.make n o).Object = o ∧ (OutputMessage.make n o).Name = n :=
  ⟨rfl, rfl, rfl, rfl⟩

/-- Claim C4.  If the message retrieved by a run-loop iteration has a
`Process` that returns false, the iteration sets the terminating flag, and
the run-loop subsequently exits (after finitely many further iterations);
if `Process` returns true, the iteration leaves the terminating flag as it
was. -/
theorem process_false_sets_terminating (t t1 : MsgThread) (m : InMsg)
    (h1 : t.exited = false) (h2 : t.retrieveIn = (t1, some m)) :
    (m.ret = false → t.childIter.terminating = true ∧
      ∃ k, (MsgThread.childIterN k t.childIter).exited = true) ∧
    (m.ret = true → t.childIter.terminating = t.terminating) := by
  have hg2 : (t.queue_in.get).2 = some m := congrArg Prod.snd h2
  have ht1 : t1 = { t with queue_in := (t.queue_in.get).1 } :=
    (congrArg Prod.fst h2).symm
  have hready : t.queue_in.ready = true := Queue.get_some_ready t.queue_in m hg2
  have hiter : t.childIter
      = (if (t1.processInMsg m).2 then (t1.processInMsg m).1
         else { (t1.processInMsg m).1 with terminating := true }) := by
    rw [MsgThread.childIter]
    rw [if_neg (by simp [h1])]
    rw [if_neg (by simp [hready])]
    rw [h2]
  obtain ⟨hpq, hpt, hpe, hpp, hpd, hpr⟩ := MsgThread.processInMsg_inv t1 m
  have ht1t : t1.terminating = t.terminating := by rw [ht1]
  have ht1e : t1.exited = t.exited := by rw [ht1]
  constructor
  · intro hf
    have hterm : t.childIter.terminating = true := by
      rw [hiter, if_neg (by rw [hpr, hf]; simp)]
    have hexit : t.childIter.exited = false := by
      rw [hiter, if_neg (by rw [hpr, hf]; simp)]
      simpa [hpe, ht1e] using h1
    refine ⟨hterm, ?_⟩
    refine ⟨(t.childIter.queue_in.cons_buf ++ t.childIter.queue_in.staging).length + 1, ?_⟩
    exact (child_drain _ t.childIter hterm hexit rfl).2.1
  · intro htr
    rw [hiter, if_pos (by rw [hpr, htr])]
    rw [hpt, ht1t]

/-- Witness for claim C4: a concrete thread whose in-queue stages one work
message with a false `Process` result; the iteration latches terminating and
the loop then exits. -/
theorem process_false_sets_terminating_witness :
    ({ initThread ("w") with queue_in := (⟨[], [InMsg.work 0 false], [], 1, 0⟩ : Queue InMsg) } : MsgThread).childIter.terminating = true ∧
    ∃ k, (MsgThread.childIterN k ({ initThread ("w") with queue_in := (⟨[], [InMsg.work 0 false], [], 1, 0⟩ : Queue InMsg) } : MsgThread).childIter).exited = true :=
  (process_false_sets_terminating
    { initThread ("w") with queue_in := ⟨[], [InMsg.work 0 false], [], 1, 0⟩ }
    { initThread ("w") with queue_in := ⟨[], [], [], 1, 1⟩ }
    (InMsg.work 0 false) (by decide) (by decide)).1 (by decide)

/-- Modelled from the spec: `MsgThread::Info` (body in `MsgThread.cc`, not
under src/): constructs the informational reporter OutputMessage, its text
prefixed with the thread's name, and SendOuts it. -/
def MsgThread.info (t : MsgThread) (msg : String) : MsgThread :=
  t.sendOut (.reporter .info (t.name ++ ": " ++ msg))

/-- Modelled from the spec: `MsgThread::Warning` (body in `MsgThread.cc`,
not under src/). -/
def MsgThread.warning (t : MsgThread) (msg : String) : MsgThread :=
  t.sendOut (.reporter .warning (t.name ++ ": " ++ msg))

/-- Modelled from the spec: `MsgThread::Error` (body in `MsgThread.cc`, not
under src/). -/
def MsgThread.error (t : MsgThread) (msg : String) : MsgThread :=
  t.sendOut (.reporter .error (t.name ++ ": " ++ msg))

/-- Modelled from the spec: `MsgThread::FatalError` (body in
`MsgThread.cc`, not under src/). -/
def MsgThread.fatalError (t : MsgThread) (msg : String) : MsgThread :=
  t.sendOut (.reporter .fatalError (t.name ++ ": " ++ msg))

/-- Modelled from the spec: `MsgThread::FatalErrorWithCore` (body in
`MsgThread.cc`, not under src/). -/
def MsgThread.fatalErrorWithCore (t : MsgThread) (msg : String) : MsgThread :=
  t.sendOut (.reporter .fatalErrorWithCore (t.name ++ ": " ++ msg))

/-- Modelled from the spec: `MsgThread::InternalWarning` (body in
`MsgThread.cc`, not under src/). -/
def MsgThread.internalWarning (t : MsgThread) (msg : String) : MsgThread :=
  t.sendOut (.reporter .internalWarning (t.name ++ ": " ++ msg))

/-- Modelled from the spec: `MsgThread::InternalError` (body in
`MsgThread.cc`, not under src/). -/
def MsgThread.internalError (t : MsgThread) (msg : String) : MsgThread :=
  t.sendOut (.reporter .internalError (t.name ++ ": " ++ msg))

/-- Modelled from the spec: `MsgThread::Debug` (debug builds; body in
`MsgThread.cc`, not under src/): the debug-logger message for the given
stream identifier. -/
def MsgThread.debug (t : MsgThread) (stream : Nat) (msg : String) : MsgThread :=
  t.sendOut (.reporter (.debug stream) (t.name ++ ": " ++ msg))

/-- Dispatches one child-side diagnostic call to the corresponding method. -/
def MsgThread.diagCall (t : MsgThread) : Diag × String → MsgThread
  | (.info, s) => t.info s
  | (.warning, s) => t.warning s
  | (.error, s) => t.error s
  | (.fatalError, s) => t.fatalError s
  | (.fatalErrorWithCore, s) => t.fatalErrorWithCore s
  | (.internalWarning, s) => t.internalWarning s
  | (.internalError, s) => t.internalError s
  | (.debug st, s) => t.debug st s

/-- A sequence of child-side diagnostic calls, issued in list order. -/
def MsgThread.diagCalls (t : MsgThread) (ds : List (Diag × String)) : MsgThread :=
  ds.foldl MsgThread.diagCall t

theorem MsgThread.diagCall_eq (t : MsgThread) (p : Diag × String) :
    t.diagCall p = t.sendOut (.reporter p.1 (t.name ++ ": " ++ p.2)) := by
  rcases p with ⟨d, s⟩
  cases d <;> rfl

/-- The reporter-sink invocations that processing a list of output messages
performs on the main thread, in order. -/
def sinkOf : List OutMsg → List (Diag × String)
  | [] => []
  | OutMsg.reporter d s :: rest => (d, s) :: sinkOf rest
  | OutMsg.heartbeatDone :: rest => sinkOf rest
  | OutMsg.finished :: rest => sinkOf rest

/-- The number of main-side `Heartbeat()` hook invocations that processing a
list of output messages performs. -/
def hbCount : List OutMsg → Nat
  | [] => 0
  | OutMsg.heartbeatDone :: rest => hbCount rest + 1
  | OutMsg.reporter _ _ :: rest => hbCount rest
  | OutMsg.finished :: rest => hbCount rest

/-- The diagnostic phase: while the thread is not terminating and the main
thread is not consuming, each diagnostic call Puts exactly one reporter
message, which splices straight into the staging buffer, in call order. -/
theorem diag_phase (ds : List (Diag × String)) :
    ∀ t : MsgThread, t.terminating = false → t.queue_out.cons_buf = [] →
    t.queue_out.prod_buf = [] →
    (t.diagCalls ds).queue_out.cons_buf = [] ∧
    (t.diagCalls ds).queue_out.prod_buf = [] ∧
    (t.diagCalls ds).queue_out.staging
      = t.queue_out.staging ++ ds.map (fun p => OutMsg.reporter p.1 (t.name ++ ": " ++ p.2)) ∧
    (t.diagCalls ds).terminating = false ∧
    (t.diagCalls ds).sink_events = t.sink_events ∧
    (t.diagCalls ds).name = t.name ∧
    (t.diagCalls ds).cnt_sent_out = t.cnt_sent_out + ds.length := by
  induction ds with
  | nil => intro t h1 h2 h3; simp [MsgThread.diagCalls, h1, h2, h3]
  | cons p ds ih =>
    intro t h1 h2 h3
    have hstep : t.diagCalls (p :: ds) = (t.diagCall p).diagCalls ds := rfl
    rw [hstep]
    have hcall := MsgThread.diagCall_eq t p
    have hu1 : (t.diagCall p).terminating = false := by
      rw [hcall]; simp [MsgThread.sendOut, MsgThread.sendOutF, h1]
    have hu2 : (t.diagCall p).queue_out.cons_buf = [] := by
      rw [hcall]; simp [MsgThread.sendOut, MsgThread.sendOutF, Queue.put, h1, h2, h3]
    have hu3 : (t.diagCall p).queue_out.prod_buf = [] := by
      rw [hcall]; simp [MsgThread.sendOut, MsgThread.sendOutF, Queue.put, h1, h2, h3]
    have hu4 : (t.diagCall p).queue_out.staging
        = t.queue_out.staging ++ [OutMsg.reporter p.1 (t.name ++ ": " ++ p.2)] := by
      rw [hcall]; simp [MsgThread.sendOut, MsgThread.sendOutF, Queue.put, h1, h2, h3]
    have hu5 : (t.diagCall p).sink_events = t.sink_events := by
      rw [hcall]; simp [MsgThread.sendOut, MsgThread.sendOutF, h1]
    have hu6 : (t.diagCall p).name = t.name := by
      rw [hcall]; simp [MsgThread.sendOut, MsgThread.sendOutF, h1]
    have hu7 : (t.diagCall p).cnt_sent_out = t.cnt_sent_out + 1 := by
      rw [hcall]; simp [MsgThread.sendOut, MsgThread.sendOutF, h1]
    obtain ⟨c1, c2, c3, c4, c5, c6, c7⟩ := ih (t.diagCall p) hu1 hu2 hu3
    refine ⟨c1, c2, ?_, c4, ?_, ?_, ?_⟩
    · rw [c3, hu4, hu6]
      simp
    · rw [c5, hu5]
    · rw [c6, hu6]
    · rw [c7, hu7]
      simp
      omega

/-- The manager's drain: with `l` pending in the consumer-visible buffers of
the out-queue and nothing stranded producer-side, `l.length + 1` retrievals
process exactly `l`, appending one sink event per reporter message in order
and one `Heartbeat()` hook call per heartbeat acknowledgment. -/
theorem drain_spec (l : List OutMsg) :
    ∀ t : MsgThread, t.queue_out.cons_buf ++ t.queue_out.staging = l →
    t.queue_out.prod_buf = [] →
    (MsgThread.drainOut (l.length + 1) t).sink_events = t.sink_events ++ sinkOf l ∧
    (MsgThread.drainOut (l.length + 1) t).heartbeat_hooks = t.heartbeat_hooks + hbCount l := by
  induction l with
  | nil =>
    intro t h1 h2
    have hc : t.queue_out.cons_buf = [] := (List.append_eq_nil.mp h1).1
    have hs : t.queue_out.staging = [] := (List.append_eq_nil.mp h1).2
    have hget : t.queue_out.get = (t.queue_out, none) := by
      simp [Queue.get, hc, hs]
    have hre : t.retrieveOut = ({ t with queue_out := t.queue_out }, none) := by
      simp only [MsgThread.retrieveOut, hget]
    simp [MsgThread.drainOut, hre, sinkOf, hbCount]
  | cons m rest ih =>
    intro t h1 h2
    obtain ⟨q1, hq1get, hq1cs, hq1prod⟩ :
        ∃ q1 : Queue OutMsg, t.queue_out.get = (q1, some m) ∧
          q1.cons_buf ++ q1.staging = rest ∧ q1.prod_buf = t.queue_out.prod_buf := by
      cases hc : t.queue_out.cons_buf with
      | cons y ys =>
        rw [hc] at h1
        simp at h1
        refine ⟨⟨t.queue_out.prod_buf, t.queue_out.staging, ys, t.queue_out.num_writes, t.queue_out.num_reads + 1⟩, ?_, ?_, rfl⟩
        · simp [Queue.get, hc, h1.1]
        · simpa using h1.2
      | nil =>
        rw [hc] at h1
        simp at h1
        refine ⟨⟨t.queue_out.prod_buf, [], rest, t.queue_out.num_writes, t.queue_out.num_reads + 1⟩, ?_, by simp, rfl⟩
        simp [Queue.get, hc, h1]
    have hre : t.retrieveOut = ({ t with queue_out := q1 }, some m) := by
      simp only [MsgThread.retrieveOut, hq1get]
    have hstep : MsgThread.drainOut ((m :: rest).length + 1) t
        = MsgThread.drainOut (rest.length + 1)
            ((({ t with queue_out := q1 } : MsgThread)).processOutMsg m) := by
      simp only [List.length_cons]
      rw [MsgThread.drainOut, hre]
    rw [hstep]
    set t1 : MsgThread := { t with queue_out := q1 } with ht1
    cases m with
    | reporter d s =>
      have := ih (t1.processOutMsg (.reporter d s))
        (by simp [MsgThread.processOutMsg, ht1, hq1cs]) (by simp [MsgThread.processOutMsg, ht1, hq1prod, h2])
      obtain ⟨ha, hb⟩ := this
      refine ⟨?_, ?_⟩
      · rw [ha]
        simp [MsgThread.processOutMsg, ht1, sinkOf]
      · rw [hb]
        simp [MsgThread.processOutMsg, ht1, hbCount]
    | heartbeatDone =>
      have := ih (t1.processOutMsg .heartbeatDone)
        (by simp [MsgThread.processOutMsg, ht1, hq1cs]) (by simp [MsgThread.processOutMsg, ht1, hq1prod, h2])
      obtain ⟨ha, hb⟩ := this
      refine ⟨?_, ?_⟩
      · rw [ha]
        simp [MsgThread.processOutMsg, ht1, sinkOf]
      · rw [hb]
        simp [MsgThread.processOutMsg, ht1, hbCount]
        omega
    | finished =>
      have := ih (t1.processOutMsg .finished)
        (by simp [MsgThread.processOutMsg, ht1, hq1cs]) (by simp [MsgThread.processOutMsg, ht1, hq1prod, h2])
      obtain ⟨ha, hb⟩ := this
      refine ⟨?_, ?_⟩
      · rw [ha]
        simp [MsgThread.processOutMsg, ht1, sinkOf]
      · rw [hb]
        simp [MsgThread.processOutMsg, ht1, hbCount]

theorem sinkOf_map_reporter (n : String) (ds : List (Diag × String)) :
    sinkOf (ds.map fun p => OutMsg.reporter p.1 (n ++ ": " ++ p.2))
      = ds.map fun p => (p.1, n ++ ": " ++ p.2) := by
  induction ds with
  | nil => rfl
  | cons p ds ih => simp [sinkOf, ih]

/-- Claim C5.  No loss or reordering of diagnostics: a sequence of child-side
diagnostic calls `ds` (Info, Warning, Error, FatalError, FatalErrorWithCore,
InternalWarning, InternalError or Debug) produces exactly one OutputMessage
per call — the out-queue then holds exactly the corresponding reporter
messages, each with text prefixed by the thread's name, in issue order — and
the main-thread drain then makes exactly one sink invocation per call, with
the prefixed texts, in the same order. -/
theorem diagnostics_exactly_once_in_order (n : String) (ds : List (Diag × String)) :
    ((initThread n).diagCalls ds).cnt_sent_out = ds.length ∧
    ((initThread n).diagCalls ds).queue_out.content
      = ds.map (fun p => OutMsg.reporter p.1 (n ++ ": " ++ p.2)) ∧
    (MsgThread.drainOut (ds.length + 1) ((initThread n).diagCalls ds)).sink_events
      = ds.map (fun p => (p.1, n ++ ": " ++ p.2)) := by
  obtain ⟨c1, c2, c3, c4, c5, c6, c7⟩ := diag_phase ds (initThread n) rfl rfl rfl
  have hname : (initThread n).name = n := rfl
  rw [hname] at c3
  have hstag : ((initThread n).diagCalls ds).queue_out.staging
      = ds.map (fun p => OutMsg.reporter p.1 (n ++ ": " ++ p.2)) := by
    rw [c3]; simp [initThread, emptyQ]
  have hlen : (ds.map (fun p => OutMsg.reporter p.1 (n ++ ": " ++ p.2))).length = ds.length := by
    simp
  have hdrain := drain_spec (ds.map (fun p => OutMsg.reporter p.1 (n ++ ": " ++ p.2)))
    ((initThread n).diagCalls ds) (by rw [c1, hstag]; simp) c2
  rw [hlen] at hdrain
  refine ⟨?_, ?_, ?_⟩
  · rw [c7]; simp [initThread]
  · unfold Queue.content
    rw [c1, c2, hstag]
    simp
  · rw [hdrain.1, c5, sinkOf_map_reporter]
    simp [initThread]

/-- Claim C6.  The heartbeat round trip: triggering a heartbeat on the main
thread with times (network_time, current_time) SendIn-forces exactly one
heartbeat message carrying those times; when the child run-loop executes it,
the child-side hook `DoHeartbeat` is invoked with exactly those two times and
exactly one one-shot output message is enqueued; when the main thread
processes that message, the main-side hook `Heartbeat()` is invoked exactly
once. -/
theorem heartbeat_roundtrip (n : String) (nt ct : Rat) :
    ((initThread n).heartbeat nt ct).queue_in.content = [InMsg.heartbeat nt ct] ∧
    ((initThread n).heartbeat nt ct).childIter.do_heartbeats = [(nt, ct)] ∧
    ((initThread n).heartbeat nt ct).childIter.processed_in = [InMsg.heartbeat nt ct] ∧
    ((initThread n).heartbeat nt ct).childIter.queue_out.content = [OutMsg.heartbeatDone] ∧
    (MsgThread.drainOut 2 ((initThread n).heartbeat nt ct).childIter).heartbeat_hooks = 1 :=
  ⟨rfl, rfl, rfl, rfl, rfl⟩

end Threading
